import Mathlib

/-!
# Verification of `guru99/EmissionsAnalyzer.py`

A shallow embedding of the `AnalysisCSV` class.  A CSV file is modelled as a
list of rows of cells (`List (List String)`); the `csv` module's quoting layer
round-trips cells faithfully and is not modelled.  Python `dict` insertion
order is modelled by an association list in which re-inserting an existing key
updates the value in place (keeping the first-occurrence position), exactly as
CPython dictionaries behave.  Numeric cell values are modelled as exact
rationals (`ℚ`); the non-finite literals accepted by Python's `float`
(`inf`, `nan`) are outside the model.
-/

set_option autoImplicit false

namespace EmissionsAnalyzer

/-- A row of a CSV file: the list of its cells. -/
abbrev Row := List String

/-- A CSV file: its list of rows. -/
abbrev CSVFile := List Row

/-- The apostrophe character, U+0027. -/
def apos : Char := Char.ofNat 39

/-- Characters treated as whitespace by Python's `str.strip()`. -/
def pyWS (c : Char) : Bool :=
  c = ' ' || c = Char.ofNat 9 || c = Char.ofNat 10 || c = Char.ofNat 13 ||
  c = Char.ofNat 11 || c = Char.ofNat 12

/-- Numeric value of a list of decimal digit characters (most significant first). -/
def digitsVal (l : List Char) : Nat :=
  l.foldl (fun n c => 10 * n + (c.toNat - 48)) 0

/-- Python `int(s)`: strip whitespace, optional sign, then a nonempty run of
decimal digits.  (Digit-group underscores are not modelled.) -/
def pyParseInt (s : String) : Option Int :=
  let core : List Char → Option Int := fun l =>
    if l ≠ [] ∧ l.all Char.isDigit then some (digitsVal l) else none
  match (s.toList.dropWhile pyWS).reverse.dropWhile pyWS |>.reverse with
  | '+' :: rest => core rest
  | '-' :: rest => (core rest).map Neg.neg
  | rest => core rest

/-- Exponent part of a Python float literal: optional sign, nonempty digits. -/
def parseExp (l : List Char) : Option Int :=
  let core : List Char → Option Int := fun d =>
    if d ≠ [] ∧ d.all Char.isDigit then some (digitsVal d) else none
  match l with
  | '+' :: rest => core rest
  | '-' :: rest => (core rest).map Neg.neg
  | rest => core rest

/-- Unsigned part of a Python float literal: `digits [. digits] [e exp]` or
`. digits [e exp]`, valued as an exact rational. -/
def pyParseFloatCore (l : List Char) : Option ℚ :=
  let intPart := l.takeWhile Char.isDigit
  let rest1 := l.dropWhile Char.isDigit
  match rest1 with
  | [] => if intPart = [] then none else some (digitsVal intPart)
  | '.' :: rest2 =>
    let frac := rest2.takeWhile Char.isDigit
    let rest3 := rest2.dropWhile Char.isDigit
    if intPart = [] ∧ frac = [] then none
    else
      let base : ℚ := (digitsVal intPart : ℚ) + (digitsVal frac : ℚ) / (10 : ℚ) ^ frac.length
      match rest3 with
      | [] => some base
      | 'e' :: e => (parseExp e).map fun k => base * (10 : ℚ) ^ k
      | 'E' :: e => (parseExp e).map fun k => base * (10 : ℚ) ^ k
      | _ => none
  | 'e' :: e =>
    if intPart = [] then none
    else (parseExp e).map fun k => (digitsVal intPart : ℚ) * (10 : ℚ) ^ k
  | 'E' :: e =>
    if intPart = [] then none
    else (parseExp e).map fun k => (digitsVal intPart : ℚ) * (10 : ℚ) ^ k
  | _ => none

/-- Python `float(s)` on finite decimal literals: strip whitespace, optional
sign, then the unsigned literal.  (`inf` / `nan` are not modelled.) -/
def pyParseFloat (s : String) : Option ℚ :=
  match (s.toList.dropWhile pyWS).reverse.dropWhile pyWS |>.reverse with
  | '+' :: rest => pyParseFloatCore rest
  | '-' :: rest => (pyParseFloatCore rest).map Neg.neg
  | rest => pyParseFloatCore rest

/-- Python dict insertion: an existing key keeps its position and gets the new
value; a new key is appended at the end. -/
def dictInsert (d : List (String × List String)) (k : String) (v : List String) :
    List (String × List String) :=
  match d with
  | [] => [(k, v)]
  | (k0, v0) :: rest => if k0 = k then (k, v) :: rest else (k0, v0) :: dictInsert rest k v

/-- Lookup in the association-list dict. -/
def dictFind (d : List (String × List String)) (k : String) : Option (List String) :=
  match d with
  | [] => none
  | (k0, v0) :: rest => if k0 = k then some v0 else dictFind rest k

/-- One step of the dict comprehension of `AnalysisCSV.__init__`: insert the
row's first cell as key and the remaining cells as value (an empty row would
raise `IndexError` at `row.pop(0)`; it is rejected before this is reached). -/
def dictStep (d : List (String × List String)) (row : Row) :
    List (String × List String) :=
  match row with
  | [] => d
  | k :: v => dictInsert d k v

/-- The dict comprehension of `AnalysisCSV.__init__`:
`{row.pop(0): row for row in reader}`. -/
def buildDict (rows : CSVFile) : List (String × List String) :=
  rows.foldl dictStep []

/-- Errors surfaced while loading a file (`get_file` rejection and the
`IndexError` a blank row would raise in the dict comprehension). -/
inductive LoadErr where
  | tooFewRows
  | emptyRow
deriving DecidableEq, Repr

/-- The state of an `AnalysisCSV` object after `__init__`. -/
structure Table where
  filename : String
  data_dict : List (String × List String)
  countries : List String
  first_key : String
  first_value : List String
deriving DecidableEq, Repr

/-- Load: `AnalysisCSV.get_file` acceptance (at least two rows) followed by
`AnalysisCSV.__init__`: build `data_dict` from the rows, pop the first key as
`first_key`, keep the remaining keys as `countries`, and look up `first_key`
for `first_value`.  A blank row would raise `IndexError` at `row.pop(0)`. -/
def load (filename : String) (f : CSVFile) : Except LoadErr Table :=
  if f.length < 2 then .error .tooFewRows
  else if f.any List.isEmpty then .error .emptyRow
  else
    match buildDict f with
    | [] => .error .emptyRow
    | (k, v) :: rest =>
      .ok { filename := filename
            data_dict := (k, v) :: rest
            countries := ((k, v) :: rest).map Prod.fst |>.tail
            first_key := k
            first_value := ((dictFind ((k, v) :: rest) k).getD v) }

/-- Python `str.strip()`. -/
def pyStrip (s : String) : String :=
  ⟨(s.toList.dropWhile pyWS).reverse.dropWhile pyWS |>.reverse⟩

/-- Python `str.title()` on the cased (here: alphabetic) characters: a letter
after a non-letter is uppercased, a letter after a letter is lowercased. -/
def titleCore : Bool → List Char → List Char
  | _, [] => []
  | prev, c :: cs =>
    if c.isAlpha then (if prev then c.toLower else c.toUpper) :: titleCore true cs
    else c :: titleCore false cs

/-- Python `str.title()`. -/
def pyTitle (s : String) : String := ⟨titleCore false s.toList⟩

/-- Python `str.replace(old, new)` over character lists: leftmost,
non-overlapping occurrences of a nonempty pattern are replaced.  The fuel
argument bounds the recursion; every step consumes at least one character, so
fuel equal to the list's length suffices. -/
def replaceFuel (pat rep : List Char) : Nat → List Char → List Char
  | _, [] => []
  | 0, s => s
  | fuel + 1, c :: cs =>
    if pat ≠ [] ∧ pat.isPrefixOf (c :: cs) then
      rep ++ replaceFuel pat rep fuel ((c :: cs).drop pat.length)
    else c :: replaceFuel pat rep fuel cs

/-- Python `str.replace(old, new)` (for nonempty `old`). -/
def pyReplace (s old new : String) : String :=
  ⟨replaceFuel old.toList new.toList s.toList.length s.toList⟩

/-- The string `" And "`. -/
def sAnd : String := " And "

/-- The string `" and "`. -/
def sand : String := " and "

/-- The string `D'` (capital D followed by an apostrophe). -/
def dUpper : String := ⟨['D', apos]⟩

/-- The string `d'` (lowercase d followed by an apostrophe). -/
def dLower : String := ⟨['d', apos]⟩

/-- The per-name normalization of `AnalysisCSV.get_country`:
`c.strip().title().replace(" And ", " and ").replace("D'", "d'")`. -/
def normalize (c : String) : String :=
  pyReplace (pyReplace (pyTitle (pyStrip c)) sAnd sand) dUpper dLower

/-- Python `list.index` as an option: index of the first occurrence. -/
def pyIndex {α : Type} [DecidableEq α] (l : List α) (a : α) : Option Nat :=
  match l with
  | [] => none
  | b :: bs => if b = a then some 0 else (pyIndex bs a).map (· + 1)

/-- Sequence a list of options: `some` of the list iff every entry is `some`. -/
def seqOpt {α : Type} : List (Option α) → Option (List α)
  | [] => some []
  | o :: os => o.bind fun a => (seqOpt os).map fun l => a :: l

/-- Python `min` over a list of rationals. -/
def pyMin : List ℚ → Option ℚ
  | [] => none
  | v :: vs => some (vs.foldl min v)

/-- Python `max` over a list of rationals. -/
def pyMax : List ℚ → Option ℚ
  | [] => none
  | v :: vs => some (vs.foldl max v)

/-- Round a rational to the nearest integer, ties to the even integer. -/
def roundHalfEven (q : ℚ) : ℤ :=
  let f := ⌊q⌋
  if q - f < 1 / 2 then f
  else if 1 / 2 < q - f then f + 1
  else if Even f then f else f + 1

/-- Python `round(q, 6)`: round to 6 decimal places, half to even. -/
def round6 (q : ℚ) : ℚ := (roundHalfEven (q * 1000000) : ℚ) / 1000000

/-- Errors of the year-analysis pipeline: the explicit out-of-range rejection
of `get_year`, and `fatal` for the uncaught `ValueError` / `IndexError` /
`ZeroDivisionError` any other failure raises. -/
inductive AnalyzeErr where
  | rangeError
  | fatal
deriving DecidableEq, Repr

/-- The result printed by `AnalysisCSV.analyze_year`. -/
structure YearStats where
  minCountry : String
  maxCountry : String
  average : ℚ
deriving DecidableEq, Repr

/-- The bounds `int(self.first_value[0])` and `int(self.first_value[-1])`
used by `AnalysisCSV.get_year` for its range check. -/
def yearRange (t : Table) : Option (Int × Int) :=
  match t.first_value.head?, t.first_value.getLast? with
  | some a, some b =>
    match pyParseInt a, pyParseInt b with
    | some lo, some hi => some (lo, hi)
    | _, _ => none
  | _, _ => none

/-- The column values of `analyze_year`:
`[float(self.data_dict[k][year_index]) for k in self.data_dict if k != self.first_key]`. -/
def yearValues (t : Table) (idx : Nat) : Option (List ℚ) :=
  seqOpt ((t.data_dict.filter fun kv => decide (kv.1 ≠ t.first_key)).map
    fun kv => (kv.2[idx]?).bind pyParseFloat)

/-- AnalyzeYear: the acceptance check of `AnalysisCSV.get_year` composed with
`AnalysisCSV.analyze_year`: reject a year outside
`[int(first_value[0]), int(first_value[-1])]` (RangeError class), then locate
the column by exact match of `str(year)` in the header, parse the column,
and report argmin / argmax country (first occurrence) and the rounded mean. -/
def analyzeYear (t : Table) (year : Int) : Except AnalyzeErr YearStats :=
  match yearRange t with
  | none => .error .fatal
  | some (lo, hi) =>
    if lo ≤ year ∧ year ≤ hi then
      match pyIndex t.first_value (toString year) with
      | none => .error .fatal
      | some idx =>
        match yearValues t idx with
        | none => .error .fatal
        | some vals =>
          match pyMin vals, pyMax vals with
          | some mn, some mx =>
            match (pyIndex vals mn).bind (fun i => t.countries[i]?),
                  (pyIndex vals mx).bind (fun i => t.countries[i]?) with
            | some cmin, some cmax =>
              .ok { minCountry := cmin, maxCountry := cmax,
                    average := round6 (vals.sum / (vals.length : ℚ)) }
            | _, _ => .error .fatal
          | _, _ => .error .fatal
    else .error .rangeError

/-- Python `str.translate(str.maketrans("", "", "-' "))`: drop dashes, apostrophes
and spaces. -/
def stripDashQuoteSpace (s : String) : String :=
  ⟨s.toList.filter fun c => !(c = '-' || c = apos || c = ' ')⟩

/-- Python `str.isalpha()`: nonempty and all alphabetic. -/
def pyIsAlpha (s : String) : Bool :=
  !s.toList.isEmpty && s.toList.all Char.isAlpha

/-- Validate, i.e. `AnalysisCSV.verify_structure`: the first dict entry's values must parse
as integers; every later entry must have an alphabetic key (after dropping
`-`, `'`, ` `) and float-parseable values.  `False` at the first violation in
scan order, `True` otherwise. -/
def verify_structure (t : Table) : Bool :=
  match t.data_dict with
  | [] => true
  | (_, hdr) :: rest =>
    hdr.all (fun c => (pyParseInt c).isSome) &&
    rest.all fun kv =>
      pyIsAlpha (stripDashQuoteSpace kv.1) &&
      kv.2.all fun c => (pyParseFloat c).isSome

/-- Rejections of `AnalysisCSV.get_country` (each re-prompts in the script). -/
inductive SelErr where
  | badCount
  | duplicate
  | unknown
deriving DecidableEq, Repr

/-- The cardinality check of `get_country`:
`(strict and user_inp_len == num) or (not strict and 0 < user_inp_len <= num)`. -/
def countCheck (strict : Bool) (num n : Nat) : Bool :=
  (strict && n == num) || (!strict && decide (0 < n) && decide (n ≤ num))

/-- One attempt of `AnalysisCSV.get_country` on an already-split input list:
check the cardinality, normalize each name, reject duplicates and names
absent from `self.countries`, else return the normalized list. -/
def get_country (t : Table) (input : List String) (num : Nat) (strict : Bool) :
    Except SelErr (List String) :=
  if countCheck strict num input.length then
    if (input.map normalize).Nodup then
      if (input.map normalize).all fun c => decide (c ∈ t.countries) then
        .ok (input.map normalize)
      else .error .unknown
    else .error .duplicate
  else .error .badCount

/-- Modelled from the documented behaviour of `os.path.splitext` (library code
not in this repository): split at the last dot, keeping the dot with the
extension; a name without a dot has an empty extension.  (The special casing
of leading dots is not modelled; every name it is applied to here ends in
`.csv`.) -/
def splitext (s : String) : String × String :=
  let r := s.toList.reverse
  let extRev := r.takeWhile fun c => decide (c ≠ '.')
  if extRev.length = r.length then (s, "")
  else (⟨(r.drop (extRev.length + 1)).reverse⟩, ⟨'.' :: extRev.reverse⟩)

/-- The candidate name `f"{name}_{counter}{ext}"` of `extract_to_file`. -/
def candName (name ext : String) (k : Nat) : String :=
  name ++ "_" ++ toString k ++ ext

/-- The `while exists(subset_filename)` loop of `extract_to_file`: try
`name_1`, `name_2`, … sequentially and return the first candidate not among
the existing files.  The filesystem is modelled as the finite list `files`,
so `files.length + 1` iterations always suffice as fuel. -/
def findFree (name ext : String) (files : List String) : Nat → Nat → String
  | counter, 0 => candName name ext counter
  | counter, fuel + 1 =>
    if candName name ext counter ∈ files then findFree name ext files (counter + 1) fuel
    else candName name ext counter

/-- The output-name computation of `AnalysisCSV.extract_to_file`:
`filename.replace(".csv", "_subset.csv")`, and when not overwriting and that
name exists, the first free `{name}_{counter}{ext}` with `counter` starting
at 1. -/
def extractName (filename : String) (files : List String) (overwrite : Bool) : String :=
  let subset := pyReplace filename ".csv" "_subset.csv"
  if !overwrite && decide (subset ∈ files) then
    let p := splitext subset
    findFree p.1 p.2 files 1 (files.length + 1)
  else subset

/-- The rows written by `AnalysisCSV.extract_to_file`: the first dict entry's
row, then one row per requested country from `self.data_dict` (a missing key
would raise `KeyError`, modelled as `none`). -/
def extractRows (t : Table) (req : List String) : Option CSVFile :=
  match dictFind t.data_dict t.first_key,
        seqOpt (req.map fun c => (dictFind t.data_dict c).map fun v => c :: v) with
  | some fv, some rows => some ((t.first_key :: fv) :: rows)
  | _, _ => none

/-- ExtractSubset, i.e. `AnalysisCSV.extract_to_file`: the chosen output filename together with
the rows written to it. -/
def extract_to_file (t : Table) (req : List String) (files : List String)
    (overwrite : Bool) : Option (String × CSVFile) :=
  (extractRows t req).map fun rows => (extractName t.filename files overwrite, rows)

/-- The data `AnalysisCSV.visualize` reads from the table: the x-axis labels
(`self.data_dict[self.first_key]`) and, per requested country, its values
parsed as floats. -/
def visualize (t : Table) (req : List String) :
    Option (List String × List (String × List ℚ)) :=
  match dictFind t.data_dict t.first_key,
        seqOpt (req.map fun c => (dictFind t.data_dict c).bind fun v =>
          (seqOpt (v.map pyParseFloat)).map fun qs => (c, qs)) with
  | some xs, some series => some (xs, series)
  | _, _ => none

/-- The object state as left behind by a method body: each field is re-read
from the object; no method after `__init__` assigns to any field. -/
def postState (t : Table) : Table :=
  { filename := t.filename, data_dict := t.data_dict, countries := t.countries,
    first_key := t.first_key, first_value := t.first_value }

/-- State-passing `analyze_year`: result together with the object state. -/
def analyze_yearS (t : Table) (year : Int) : Table × Except AnalyzeErr YearStats :=
  (postState t, analyzeYear t year)

/-- State-passing `verify_structure`. -/
def verify_structureS (t : Table) : Table × Bool :=
  (postState t, verify_structure t)

/-- State-passing `get_country`. -/
def get_countryS (t : Table) (input : List String) (num : Nat) (strict : Bool) :
    Table × Except SelErr (List String) :=
  (postState t, get_country t input num strict)

/-- State-passing `extract_to_file`. -/
def extract_to_fileS (t : Table) (req files : List String) (overwrite : Bool) :
    Table × Option (String × CSVFile) :=
  (postState t, extract_to_file t req files overwrite)

/-- State-passing `visualize`. -/
def visualizeS (t : Table) (req : List String) :
    Table × Option (List String × List (String × List ℚ)) :=
  (postState t, visualize t req)

/-- A file `load` accepts whose rows have pairwise distinct first cells. -/
def goodFile (f : CSVFile) : Bool :=
  decide (2 ≤ f.length) && f.all (fun r => !r.isEmpty) &&
  decide ((f.map fun r => r.headI).Nodup)

/-- A `goodFile` that moreover fits the numeric design: every row as long as
the header, integer header cells, float value cells. -/
def numericFile (f : CSVFile) : Bool :=
  goodFile f &&
  match f with
  | [] => false
  | hdr :: rows =>
    hdr.tail.all (fun c => (pyParseInt c).isSome) &&
    rows.all (fun r => decide (r.length = hdr.length)) &&
    rows.all fun r => r.tail.all fun c => (pyParseFloat c).isSome

/-- The table `load` builds from a file whose rows have pairwise distinct
first cells: the dict maps each row's first cell to the remaining cells. -/
def loadedTable (fn : String) (hdr : Row) (rows : CSVFile) : Table :=
  { filename := fn,
    data_dict := (hdr.headI, hdr.tail) :: rows.map fun r => (r.headI, r.tail),
    countries := rows.map List.headI,
    first_key := hdr.headI,
    first_value := hdr.tail }

/-- The spec's running example file: header `2019-2021`, rows for France and
Germany. -/
def exFile : CSVFile :=
  [["CO2", "2019", "2020", "2021"],
   ["France", "1.1", "1.2", "1.3"],
   ["Germany", "2.1", "1.9", "2.0"]]

/-- The table `load "data.csv" exFile` produces. -/
def exTable : Table :=
  { filename := "data.csv",
    data_dict := [("CO2", ["2019", "2020", "2021"]),
                  ("France", ["1.1", "1.2", "1.3"]),
                  ("Germany", ["2.1", "1.9", "2.0"])],
    countries := ["France", "Germany"],
    first_key := "CO2",
    first_value := ["2019", "2020", "2021"] }

/-- The file `exFile` with its two country rows swapped. -/
def exFileSwap : CSVFile :=
  [["CO2", "2019", "2020", "2021"],
   ["Germany", "2.1", "1.9", "2.0"],
   ["France", "1.1", "1.2", "1.3"]]

/-- The table `load "data.csv" exFileSwap` produces. -/
def exTableSwap : Table :=
  { filename := "data.csv",
    data_dict := [("CO2", ["2019", "2020", "2021"]),
                  ("Germany", ["2.1", "1.9", "2.0"]),
                  ("France", ["1.1", "1.2", "1.3"])],
    countries := ["Germany", "France"],
    first_key := "CO2",
    first_value := ["2019", "2020", "2021"] }

/-- A file whose single year column has tied minima (B, C) and tied maxima
(A, D). -/
def tieFile : CSVFile :=
  [["l", "2019"], ["A", "3.0"], ["B", "1.0"], ["C", "1.0"], ["D", "3.0"]]

/-- The table `load "tie.csv" tieFile` produces. -/
def tieTable : Table :=
  { filename := "tie.csv",
    data_dict := [("l", ["2019"]), ("A", ["3.0"]), ("B", ["1.0"]),
                  ("C", ["1.0"]), ("D", ["3.0"])],
    countries := ["A", "B", "C", "D"],
    first_key := "l",
    first_value := ["2019"] }

/-- The table loaded from `tieFile` with its first two country rows swapped. -/
def tieTableSwap : Table :=
  { filename := "tie.csv",
    data_dict := [("l", ["2019"]), ("B", ["1.0"]), ("A", ["3.0"]),
                  ("C", ["1.0"]), ("D", ["3.0"])],
    countries := ["B", "A", "C", "D"],
    first_key := "l",
    first_value := ["2019"] }

/-- A loaded table whose header has a gap: years 2019 and 2021 but not 2020. -/
def gapTable : Table :=
  { filename := "gap.csv",
    data_dict := [("l", ["2019", "2021"]), ("A", ["1.0", "1.0"]),
                  ("B", ["2.0", "2.0"])],
    countries := ["A", "B"],
    first_key := "l",
    first_value := ["2019", "2021"] }

/-- A table whose header contains the non-integer cell `"abc"`. -/
def badHeaderTable : Table :=
  { filename := "b1.csv",
    data_dict := [("CO2", ["abc", "2020"]), ("France", ["1.0", "2.0"])],
    countries := ["France"],
    first_key := "CO2",
    first_value := ["abc", "2020"] }

/-- A table with the non-alphabetic country key `"123"`. -/
def badKeyTable : Table :=
  { filename := "b2.csv",
    data_dict := [("CO2", ["2019", "2020"]), ("123", ["1.0", "2.0"])],
    countries := ["123"],
    first_key := "CO2",
    first_value := ["2019", "2020"] }

/-- A table with the non-float value cell `"N/A"`. -/
def badValTable : Table :=
  { filename := "b3.csv",
    data_dict := [("CO2", ["2019", "2020"]), ("France", ["N/A", "2.0"])],
    countries := ["France"],
    first_key := "CO2",
    first_value := ["2019", "2020"] }

/-- A file in which two rows share the first cell `"A"`. -/
def dupFile : CSVFile :=
  [["l", "2019"], ["A", "1"], ["A", "2"]]

theorem seqOpt_map_some {α : Type} (m : List α) : seqOpt (m.map some) = some m := by
  induction m with
  | nil => rfl
  | cons a l ih => simp [seqOpt, ih]

theorem eq_map_some_of_seqOpt {α : Type} {l : List (Option α)} {m : List α}
    (h : seqOpt l = some m) : l = m.map some := by
  induction l generalizing m with
  | nil =>
    simp only [seqOpt, Option.some.injEq] at h
    subst h
    rfl
  | cons o os ih =>
    rcases o with _ | a
    · simp [seqOpt] at h
    · rcases ho : seqOpt os with _ | l2
      · simp [seqOpt, ho] at h
      · simp only [seqOpt, ho] at h
        simp only [Option.some_bind, Option.map_some', Option.some.injEq] at h
        rw [← h]
        simp [ih ho]

theorem exists_map_some {α : Type} {l : List (Option α)}
    (h : ∀ o ∈ l, ∃ a, o = some a) : ∃ m : List α, l = m.map some := by
  induction l with
  | nil => exact ⟨[], rfl⟩
  | cons o os ih =>
    obtain ⟨a, rfl⟩ := h o (by simp)
    obtain ⟨m, rfl⟩ := ih fun o ho => h o (by simp [ho])
    exact ⟨a :: m, rfl⟩

theorem pyIndex_eq_some {α : Type} [DecidableEq α] {l : List α} {a : α} {i : ℕ}
    (h : pyIndex l a = some i) :
    l[i]? = some a ∧ ∀ j, j < i → l[j]? ≠ some a := by
  induction l generalizing i with
  | nil => simp [pyIndex] at h
  | cons b bs ih =>
    by_cases hb : b = a
    · simp only [pyIndex, if_pos hb, Option.some.injEq] at h
      subst h
      subst hb
      simp
    · simp only [pyIndex, if_neg hb, Option.map_eq_some'] at h
      obtain ⟨i2, hi2, rfl⟩ := h
      obtain ⟨h1, h2⟩ := ih hi2
      refine ⟨by simpa using h1, ?_⟩
      intro j hj
      cases j with
      | zero => simpa using hb
      | succ j => simpa using h2 j (by omega)

theorem pyIndex_of_mem {α : Type} [DecidableEq α] {l : List α} {a : α}
    (h : a ∈ l) : ∃ i, pyIndex l a = some i ∧ i < l.length := by
  induction l with
  | nil => simp at h
  | cons b bs ih =>
    by_cases hb : b = a
    · exact ⟨0, by simp [pyIndex, hb], by simp⟩
    · rw [List.mem_cons] at h
      rcases h with h | h
      · exact absurd h.symm hb
      · obtain ⟨i, hi, hlen⟩ := ih h
        exact ⟨i + 1, by simp [pyIndex, hb, hi], by simp; omega⟩

theorem pyIndex_mem_eq_none {α : Type} [DecidableEq α] {l : List α} {a : α}
    (h : pyIndex l a = none) : a ∉ l := by
  induction l with
  | nil => simp
  | cons b bs ih =>
    by_cases hb : b = a
    · simp [pyIndex, hb] at h
    · simp only [pyIndex, if_neg hb, Option.map_eq_none'] at h
      simp [ih h, hb]
      exact fun hc => hb hc.symm

theorem foldl_min_spec (v : ℚ) (vs : List ℚ) :
    vs.foldl min v ∈ v :: vs ∧ ∀ x ∈ v :: vs, vs.foldl min v ≤ x := by
  induction vs generalizing v with
  | nil => simp
  | cons w ws ih =>
    obtain ⟨hmem, hle⟩ := ih (min v w)
    rw [List.mem_cons] at hmem
    have hms : List.foldl min v (w :: ws) = List.foldl min (min v w) ws := rfl
    rw [hms]
    refine ⟨?_, ?_⟩
    · rw [List.mem_cons, List.mem_cons]
      rcases hmem with h | h
      · rcases min_choice v w with hc | hc
        · exact Or.inl (by rw [h, hc])
        · exact Or.inr (Or.inl (by rw [h, hc]))
      · exact Or.inr (Or.inr h)
    · intro x hx
      rw [List.mem_cons, List.mem_cons] at hx
      rcases hx with hx | hx | hx
      · rw [hx]
        exact le_trans (hle _ (by simp)) (min_le_left v w)
      · rw [hx]
        exact le_trans (hle _ (by simp)) (min_le_right v w)
      · exact hle x (by simp [hx])

theorem foldl_max_spec (v : ℚ) (vs : List ℚ) :
    vs.foldl max v ∈ v :: vs ∧ ∀ x ∈ v :: vs, x ≤ vs.foldl max v := by
  induction vs generalizing v with
  | nil => simp
  | cons w ws ih =>
    obtain ⟨hmem, hle⟩ := ih (max v w)
    rw [List.mem_cons] at hmem
    have hms : List.foldl max v (w :: ws) = List.foldl max (max v w) ws := rfl
    rw [hms]
    refine ⟨?_, ?_⟩
    · rw [List.mem_cons, List.mem_cons]
      rcases hmem with h | h
      · rcases max_choice v w with hc | hc
        · exact Or.inl (by rw [h, hc])
        · exact Or.inr (Or.inl (by rw [h, hc]))
      · exact Or.inr (Or.inr h)
    · intro x hx
      rw [List.mem_cons, List.mem_cons] at hx
      rcases hx with hx | hx | hx
      · rw [hx]
        exact le_trans (le_max_left v w) (hle _ (by simp))
      · rw [hx]
        exact le_trans (le_max_right v w) (hle _ (by simp))
      · exact hle x (by simp [hx])

theorem pyMin_spec {l : List ℚ} {m : ℚ} (h : pyMin l = some m) :
    m ∈ l ∧ ∀ x ∈ l, m ≤ x := by
  rcases l with _ | ⟨v, vs⟩
  · simp [pyMin] at h
  · simp only [pyMin, Option.some.injEq] at h
    subst h
    exact foldl_min_spec v vs

theorem pyMax_spec {l : List ℚ} {m : ℚ} (h : pyMax l = some m) :
    m ∈ l ∧ ∀ x ∈ l, x ≤ m := by
  rcases l with _ | ⟨v, vs⟩
  · simp [pyMax] at h
  · simp only [pyMax, Option.some.injEq] at h
    subst h
    exact foldl_max_spec v vs

theorem pyMin_isSome {l : List ℚ} (h : l ≠ []) : ∃ m, pyMin l = some m := by
  rcases l with _ | ⟨v, vs⟩
  · exact absurd rfl h
  · exact ⟨vs.foldl min v, rfl⟩

theorem pyMax_isSome {l : List ℚ} (h : l ≠ []) : ∃ m, pyMax l = some m := by
  rcases l with _ | ⟨v, vs⟩
  · exact absurd rfl h
  · exact ⟨vs.foldl max v, rfl⟩

theorem pyMin_perm {l l2 : List ℚ} (h : l.Perm l2) : pyMin l = pyMin l2 := by
  by_cases hn : l = []
  · subst hn
    rw [h.symm.eq_nil]
  · have h2 : l2 ≠ [] := fun hc => hn (by rw [hc] at h; exact h.eq_nil)
    obtain ⟨m1, hm1⟩ := pyMin_isSome hn
    obtain ⟨m2, hm2⟩ := pyMin_isSome h2
    obtain ⟨hm1m, hm1le⟩ := pyMin_spec hm1
    obtain ⟨hm2m, hm2le⟩ := pyMin_spec hm2
    rw [hm1, hm2]
    exact congrArg some
      (le_antisymm (hm1le m2 (h.mem_iff.mpr hm2m)) (hm2le m1 (h.mem_iff.mp hm1m)))

theorem pyMax_perm {l l2 : List ℚ} (h : l.Perm l2) : pyMax l = pyMax l2 := by
  by_cases hn : l = []
  · subst hn
    rw [h.symm.eq_nil]
  · have h2 : l2 ≠ [] := fun hc => hn (by rw [hc] at h; exact h.eq_nil)
    obtain ⟨m1, hm1⟩ := pyMax_isSome hn
    obtain ⟨m2, hm2⟩ := pyMax_isSome h2
    obtain ⟨hm1m, hm1le⟩ := pyMax_spec hm1
    obtain ⟨hm2m, hm2le⟩ := pyMax_spec hm2
    rw [hm1, hm2]
    exact congrArg some
      (le_antisymm (hm2le m1 (h.mem_iff.mp hm1m)) (hm1le m2 (h.mem_iff.mpr hm2m)))

theorem dictFind_dictInsert_self (d : List (String × List String)) (k : String)
    (v : List String) : dictFind (dictInsert d k v) k = some v := by
  induction d with
  | nil => simp [dictInsert, dictFind]
  | cons kv rest ih =>
    by_cases hk : kv.1 = k
    · simp [dictInsert, hk, dictFind]
    · simp [dictInsert, hk, dictFind, ih]

theorem dictFind_dictInsert_ne (d : List (String × List String)) (k : String)
    (v : List String) (k2 : String) (h : k2 ≠ k) :
    dictFind (dictInsert d k v) k2 = dictFind d k2 := by
  induction d with
  | nil =>
    simp only [dictInsert, dictFind]
    rw [if_neg (fun hc => h hc.symm)]
  | cons kv rest ih =>
    by_cases hk : kv.1 = k
    · simp only [dictInsert, if_pos hk, dictFind]
      rw [if_neg (fun hc => h hc.symm), if_neg (by rw [hk]; exact fun hc => h hc.symm)]
    · simp only [dictInsert, if_neg hk, dictFind]
      by_cases h2 : kv.1 = k2
      · rw [if_pos h2, if_pos h2]
      · rw [if_neg h2, if_neg h2, ih]

theorem dictInsert_eq_append {d : List (String × List String)} {k : String}
    (v : List String) (h : k ∉ d.map Prod.fst) : dictInsert d k v = d ++ [(k, v)] := by
  induction d with
  | nil => rfl
  | cons kv rest ih =>
    simp only [List.map_cons, List.mem_cons] at h
    push_neg at h
    have hne2 : ¬ kv.1 = k := fun hc => h.1 hc.symm
    simp only [dictInsert, if_neg hne2, List.cons_append]
    rw [ih h.2]

theorem mem_map_fst_dictInsert {d : List (String × List String)} {k k2 : String}
    {v : List String} :
    k2 ∈ (dictInsert d k v).map Prod.fst ↔ k2 ∈ d.map Prod.fst ∨ k2 = k := by
  induction d with
  | nil => simp [dictInsert]
  | cons kv rest ih =>
    by_cases hk : kv.1 = k
    · simp only [dictInsert, if_pos hk, List.map_cons, List.mem_cons]
      rw [hk]
      tauto
    · simp only [dictInsert, if_neg hk, List.map_cons, List.mem_cons, ih]
      tauto

theorem map_fst_dictInsert_of_mem {d : List (String × List String)} {k : String}
    (v : List String) (h : k ∈ d.map Prod.fst) :
    (dictInsert d k v).map Prod.fst = d.map Prod.fst := by
  induction d with
  | nil => simp at h
  | cons kv rest ih =>
    by_cases hk : kv.1 = k
    · simp [dictInsert, hk]
    · simp only [List.map_cons, List.mem_cons] at h
      rcases h with h | h
      · exact absurd h.symm hk
      · simp [dictInsert, hk, ih h]

theorem length_dictInsert_of_mem {d : List (String × List String)} {k : String}
    (v : List String) (h : k ∈ d.map Prod.fst) :
    (dictInsert d k v).length = d.length := by
  have := map_fst_dictInsert_of_mem (d := d) (k := k) v h
  have h1 : ((dictInsert d k v).map Prod.fst).length = (d.map Prod.fst).length := by rw [this]
  simpa using h1

theorem length_dictInsert_le (d : List (String × List String)) (k : String)
    (v : List String) : (dictInsert d k v).length ≤ d.length + 1 := by
  induction d with
  | nil => simp [dictInsert]
  | cons kv rest ih =>
    by_cases hk : kv.1 = k
    · simp [dictInsert, hk]
    · simp only [dictInsert, if_neg hk, List.length_cons]
      omega

theorem nodup_map_fst_dictInsert {d : List (String × List String)} {k : String}
    (v : List String) (h : (d.map Prod.fst).Nodup) :
    ((dictInsert d k v).map Prod.fst).Nodup := by
  by_cases hm : k ∈ d.map Prod.fst
  · rw [map_fst_dictInsert_of_mem v hm]
    exact h
  · rw [dictInsert_eq_append v hm]
    simp only [List.map_append, List.map_cons, List.map_nil]
    rw [List.nodup_append]
    refine ⟨h, by simp, ?_⟩
    intro a ha hb
    rw [List.mem_singleton] at hb
    subst hb
    exact hm ha

theorem mem_map_fst_foldl {rows : CSVFile} {d : List (String × List String)}
    {k : String} :
    k ∈ ((rows.foldl dictStep d).map Prod.fst) ↔
      k ∈ d.map Prod.fst ∨ ∃ r ∈ rows, r ≠ [] ∧ r.headI = k := by
  induction rows generalizing d with
  | nil => simp
  | cons r rest ih =>
    rw [List.foldl_cons, ih]
    rcases r with _ | ⟨k0, v0⟩
    · simp only [dictStep, List.mem_cons]
      constructor
      · rintro (h | ⟨r2, hr2, hne, hh⟩)
        · exact Or.inl h
        · exact Or.inr ⟨r2, Or.inr hr2, hne, hh⟩
      · rintro (h | ⟨r2, hr2 | hr2, hne, hh⟩)
        · exact Or.inl h
        · exact absurd hr2 hne
        · exact Or.inr ⟨r2, hr2, hne, hh⟩
    · simp only [dictStep, mem_map_fst_dictInsert, List.mem_cons]
      constructor
      · rintro ((h | h) | h)
        · exact Or.inl h
        · exact Or.inr ⟨k0 :: v0, Or.inl rfl, by simp, by simp [List.headI, h]⟩
        · obtain ⟨r2, hr2, hne, hh⟩ := h
          exact Or.inr ⟨r2, Or.inr hr2, hne, hh⟩
      · rintro (h | ⟨r2, hr2 | hr2, hne, hh⟩)
        · exact Or.inl (Or.inl h)
        · subst hr2
          simp only [List.headI] at hh
          exact Or.inl (Or.inr hh.symm)
        · exact Or.inr ⟨r2, hr2, hne, hh⟩

theorem nodup_map_fst_foldl {rows : CSVFile} {d : List (String × List String)}
    (h : (d.map Prod.fst).Nodup) : ((rows.foldl dictStep d).map Prod.fst).Nodup := by
  induction rows generalizing d with
  | nil => exact h
  | cons r rest ih =>
    rw [List.foldl_cons]
    rcases r with _ | ⟨k0, v0⟩
    · exact ih h
    · exact ih (nodup_map_fst_dictInsert v0 h)

theorem foldl_dictStep_nodup (rows : CSVFile) :
    ∀ (d : List (String × List String)),
    (∀ r ∈ rows, r ≠ []) →
    ((d.map Prod.fst ++ rows.map List.headI).Nodup) →
    rows.foldl dictStep d = d ++ rows.map fun r => (r.headI, r.tail) := by
  induction rows with
  | nil => simp
  | cons r rest ih =>
    intro d hne hnd
    obtain ⟨k0, v0, rfl⟩ : ∃ k0 v0, r = k0 :: v0 := by
      rcases r with _ | ⟨k0, v0⟩
      · exact absurd rfl (hne [] (by simp))
      · exact ⟨k0, v0, rfl⟩
    rw [List.foldl_cons]
    have hk0 : k0 ∉ d.map Prod.fst := by
      intro hc
      rw [List.map_cons] at hnd
      have hd := (List.nodup_append.mp hnd).2.2
      exact hd hc (by simp [List.headI])
    have hstep : dictStep d (k0 :: v0) = d ++ [(k0, v0)] := dictInsert_eq_append v0 hk0
    have hnd2 : ((d ++ [(k0, v0)]).map Prod.fst ++ rest.map List.headI).Nodup := by
      have he : (d ++ [(k0, v0)]).map Prod.fst ++ rest.map List.headI
          = d.map Prod.fst ++ (k0 :: rest.map List.headI) := by
        simp
      rw [he]
      simpa [List.headI] using hnd
    rw [hstep, ih (d ++ [(k0, v0)]) (fun r2 hr2 => hne r2 (by simp [hr2])) hnd2]
    simp [List.headI]

theorem buildDict_nodup {f : CSVFile} (hne : ∀ r ∈ f, r ≠ [])
    (hnd : (f.map List.headI).Nodup) :
    buildDict f = f.map fun r => (r.headI, r.tail) := by
  have := foldl_dictStep_nodup f [] hne (by simpa using hnd)
  simpa [buildDict] using this

theorem goodFile_spec {f : CSVFile} (hg : goodFile f = true) :
    2 ≤ f.length ∧ (∀ r ∈ f, r ≠ []) ∧ (f.map List.headI).Nodup := by
  simp only [goodFile, Bool.and_eq_true, decide_eq_true_eq, List.all_eq_true] at hg
  refine ⟨hg.1.1, fun r hr => ?_, hg.2⟩
  have := hg.1.2 r hr
  simpa using this

theorem load_eq_ok (fn : String) {hdr : Row} {rows : CSVFile}
    (hg : goodFile (hdr :: rows) = true) :
    load fn (hdr :: rows) = .ok (loadedTable fn hdr rows) := by
  simp only [loadedTable]
  obtain ⟨hlen, hne, hnd⟩ := goodFile_spec hg
  have hbd : buildDict (hdr :: rows) = (hdr :: rows).map fun r => (r.headI, r.tail) :=
    buildDict_nodup hne hnd
  rw [List.map_cons] at hbd
  have hnoempty : ¬ ((hdr :: rows).any List.isEmpty = true) := by
    intro hc
    rw [List.any_eq_true] at hc
    obtain ⟨r, hr, he⟩ := hc
    exact hne r hr (by simpa using he)
  simp only [load]
  rw [if_neg (by omega), if_neg hnoempty, hbd]
  simp [dictFind, List.map_map, Function.comp]

theorem buildDict_ne_nil {f : CSVFile} (h0 : f ≠ []) (hne : ∀ r ∈ f, r ≠ []) :
    buildDict f ≠ [] := by
  rcases f with _ | ⟨r, rest⟩
  · exact absurd rfl h0
  · intro hc
    have hk : r.headI ∈ ((buildDict (r :: rest)).map Prod.fst) := by
      rw [buildDict, mem_map_fst_foldl]
      exact Or.inr ⟨r, by simp, hne r (by simp), rfl⟩
    rw [hc] at hk
    simp at hk

theorem load_isOk_iff {fn : String} {f : CSVFile} :
    (∃ t, load fn f = .ok t) ↔ 2 ≤ f.length ∧ ∀ r ∈ f, r ≠ [] := by
  constructor
  · rintro ⟨t, ht⟩
    simp only [load] at ht
    by_cases h1 : f.length < 2
    · rw [if_pos h1] at ht
      exact absurd ht (by simp)
    · rw [if_neg h1] at ht
      by_cases h2 : f.any List.isEmpty = true
      · rw [if_pos h2] at ht
        exact absurd ht (by simp)
      · refine ⟨by omega, fun r hr hc => ?_⟩
        subst hc
        exact h2 (List.any_eq_true.mpr ⟨[], hr, rfl⟩)
  · rintro ⟨h1, h2⟩
    have hne : buildDict f ≠ [] := buildDict_ne_nil (by rintro rfl; simp at h1) h2
    simp only [load]
    rw [if_neg (by omega), if_neg ?_]
    · rcases hb : buildDict f with _ | ⟨⟨k, v⟩, rest⟩
      · exact absurd hb hne
      · exact ⟨_, rfl⟩
    · intro hc
      rw [List.any_eq_true] at hc
      obtain ⟨r, hr, he⟩ := hc
      exact h2 r hr (by simpa using he)

theorem dictFind_foldl {rows : CSVFile} :
    ∀ (d : List (String × List String)) (k : String), (∀ r ∈ rows, r ≠ []) →
    dictFind (rows.foldl dictStep d) k =
      match (rows.filter fun r => decide (r.headI = k)).getLast? with
      | some r => some r.tail
      | none => dictFind d k := by
  induction rows with
  | nil => simp
  | cons r rest ih =>
    intro d k hne
    obtain ⟨k0, v0, rfl⟩ : ∃ k0 v0, r = k0 :: v0 := by
      rcases r with _ | ⟨k0, v0⟩
      · exact absurd rfl (hne [] (by simp))
      · exact ⟨k0, v0, rfl⟩
    rw [List.foldl_cons]
    have hstep : dictStep d (k0 :: v0) = dictInsert d k0 v0 := rfl
    rw [hstep, ih (dictInsert d k0 v0) k (fun r2 hr2 => hne r2 (by simp [hr2]))]
    by_cases hk : k0 = k
    · subst hk
      rw [List.filter_cons_of_pos (by simp [List.headI])]
      rcases hfr : rest.filter (fun r => decide (r.headI = k0)) with _ | ⟨q, qs⟩
      · rw [hfr]
        simp [dictFind_dictInsert_self]
      · rw [hfr]
        simp only [List.getLast?_cons_cons]
        obtain ⟨r2, hr2⟩ : ∃ r2, (q :: qs).getLast? = some r2 :=
          ⟨(q :: qs).getLast (by simp), List.getLast?_eq_getLast_of_ne_nil (by simp)⟩
        rw [hr2]
    · rw [List.filter_cons_of_neg (by simp [List.headI, hk])]
      rcases hfr : (rest.filter fun r => decide (r.headI = k)).getLast? with _ | r2
      · rw [hfr]
        exact dictFind_dictInsert_ne d k0 v0 k (fun hc => hk hc.symm)
      · rw [hfr]

theorem length_buildDict_lt {f : CSVFile} (hne : ∀ r ∈ f, r ≠ [])
    (hdup : ¬ (f.map List.headI).Nodup) :
    (buildDict f).length < f.length := by
  have hknodup : ((buildDict f).map Prod.fst).Nodup := by
    rw [buildDict]
    exact nodup_map_fst_foldl (by simp)
  have hmem : ∀ k, k ∈ (buildDict f).map Prod.fst ↔ k ∈ f.map List.headI := by
    intro k
    rw [buildDict, mem_map_fst_foldl]
    constructor
    · rintro (h | ⟨r, hr, hne2, hh⟩)
      · simp at h
      · exact List.mem_map.mpr ⟨r, hr, hh⟩
    · intro h
      obtain ⟨r, hr, hh⟩ := List.mem_map.mp h
      exact Or.inr ⟨r, hr, hne r hr, hh⟩
  have hperm : ((buildDict f).map Prod.fst).Perm (f.map List.headI).dedup :=
    (List.perm_ext_iff_of_nodup hknodup (List.nodup_dedup _)).mpr
      (fun a => by rw [hmem a, List.mem_dedup])
  have hlt : (f.map List.headI).dedup.length < (f.map List.headI).length := by
    have hsub := List.dedup_sublist (f.map List.headI)
    have hle := hsub.length_le
    rcases lt_or_eq_of_le hle with hcase | hcase
    · exact hcase
    · exfalso
      have heq := hsub.eq_of_length_le (le_of_eq hcase.symm)
      exact hdup (heq ▸ List.nodup_dedup (f.map List.headI))
  have h1 : (buildDict f).length = ((buildDict f).map Prod.fst).length := by simp
  have h2 : (f.map List.headI).length = f.length := by simp
  rw [h1, hperm.length_eq]
  omega

theorem analyzeYear_rangeError {t : Table} {year lo hi : Int}
    (hr : yearRange t = some (lo, hi)) (hy : ¬(lo ≤ year ∧ year ≤ hi)) :
    analyzeYear t year = .error .rangeError := by
  simp only [analyzeYear, hr]
  rw [if_neg hy]

theorem analyzeYear_ok_build {t : Table} {year lo hi : Int} {idx : ℕ}
    {vals : List ℚ} {mn mx : ℚ} {imn imx : ℕ} {cmin cmax : String}
    (hr : yearRange t = some (lo, hi)) (hy : lo ≤ year ∧ year ≤ hi)
    (hidx : pyIndex t.first_value (toString year) = some idx)
    (hvals : yearValues t idx = some vals)
    (hmn : pyMin vals = some mn) (hmx : pyMax vals = some mx)
    (himn : pyIndex vals mn = some imn) (himx : pyIndex vals mx = some imx)
    (hcmin : t.countries[imn]? = some cmin) (hcmax : t.countries[imx]? = some cmax) :
    analyzeYear t year = .ok
      { minCountry := cmin, maxCountry := cmax,
        average := round6 (vals.sum / (vals.length : ℚ)) } := by
  simp only [analyzeYear, hr]
  rw [if_pos hy]
  simp only [hidx, hvals, hmn, hmx, himn, himx, Option.some_bind, hcmin, hcmax]

theorem analyzeYear_ok_inv {t : Table} {year : Int} {s : YearStats}
    (h : analyzeYear t year = .ok s) :
    ∃ lo hi idx vals mn mx imn imx,
      yearRange t = some (lo, hi) ∧ (lo ≤ year ∧ year ≤ hi) ∧
      pyIndex t.first_value (toString year) = some idx ∧
      yearValues t idx = some vals ∧
      pyMin vals = some mn ∧ pyMax vals = some mx ∧
      pyIndex vals mn = some imn ∧ pyIndex vals mx = some imx ∧
      t.countries[imn]? = some s.minCountry ∧ t.countries[imx]? = some s.maxCountry ∧
      s.average = round6 (vals.sum / (vals.length : ℚ)) := by
  cases hr : yearRange t with
  | none =>
    simp only [analyzeYear, hr] at h
    exact Except.noConfusion h
  | some p =>
    obtain ⟨lo, hi⟩ := p
    simp only [analyzeYear, hr] at h
    by_cases hy : lo ≤ year ∧ year ≤ hi
    · rw [if_pos hy] at h
      cases hidx : pyIndex t.first_value (toString year) with
      | none =>
        simp only [hidx] at h
        exact Except.noConfusion h
      | some idx =>
        simp only [hidx] at h
        cases hvals : yearValues t idx with
        | none =>
          simp only [hvals] at h
          exact Except.noConfusion h
        | some vals =>
          simp only [hvals] at h
          cases hmn : pyMin vals with
          | none =>
            simp only [hmn] at h
            exact Except.noConfusion h
          | some mn =>
            simp only [hmn] at h
            cases hmx : pyMax vals with
            | none =>
              simp only [hmx] at h
              exact Except.noConfusion h
            | some mx =>
              simp only [hmx] at h
              cases himn : pyIndex vals mn with
              | none =>
                simp only [himn, Option.none_bind] at h
                exact Except.noConfusion h
              | some imn =>
                simp only [himn, Option.some_bind] at h
                cases himx : pyIndex vals mx with
                | none =>
                  simp only [himx, Option.none_bind] at h
                  cases hcm : t.countries[imn]? <;> simp only [hcm] at h <;>
                    exact Except.noConfusion h
                | some imx =>
                  simp only [himx, Option.some_bind] at h
                  cases hcmin : t.countries[imn]? with
                  | none =>
                    simp only [hcmin] at h
                    exact Except.noConfusion h
                  | some cmin =>
                    simp only [hcmin] at h
                    cases hcmax : t.countries[imx]? with
                    | none =>
                      simp only [hcmax] at h
                      exact Except.noConfusion h
                    | some cmax =>
                      simp only [hcmax, Except.ok.injEq] at h
                      refine ⟨lo, hi, idx, vals, mn, mx, imn, imx, rfl, hy, rfl,
                        hvals, hmn, hmx, himn, himx, ?_, ?_, ?_⟩
                      · rw [← h]
                        exact hcmin
                      · rw [← h]
                        exact hcmax
                      · rw [← h]
    · rw [if_neg hy] at h
      simp at h

theorem numericFile_spec {hdr : Row} {rows : CSVFile}
    (hf : numericFile (hdr :: rows) = true) :
    goodFile (hdr :: rows) = true ∧
    (∀ c ∈ hdr.tail, (pyParseInt c).isSome) ∧
    (∀ r ∈ rows, r.length = hdr.length) ∧
    (∀ r ∈ rows, ∀ c ∈ r.tail, (pyParseFloat c).isSome) := by
  simp only [numericFile, Bool.and_eq_true, List.all_eq_true, decide_eq_true_eq] at hf
  exact ⟨hf.1, fun c hc => hf.2.1.1 c hc, hf.2.1.2, fun r hr c hc => hf.2.2 r hr c hc⟩

theorem perm_of_map_some {α : Type} {l l2 : List α}
    (h : (l.map some).Perm (l2.map some)) : l.Perm l2 := by
  have h2 := h.filterMap id
  simpa using h2

theorem filter_ne_first {hdr : Row} {rows : CSVFile}
    (hnd : ((hdr :: rows).map List.headI).Nodup) :
    (((hdr.headI, hdr.tail) :: rows.map fun r => (r.headI, r.tail)).filter
      fun kv => decide (kv.1 ≠ hdr.headI)) = rows.map fun r => (r.headI, r.tail) := by
  rw [List.filter_cons_of_neg (by simp)]
  apply List.filter_eq_self.mpr
  intro kv hkv
  obtain ⟨r, hr, rfl⟩ := List.mem_map.mp hkv
  simp only [decide_eq_true_eq]
  intro hc
  rw [List.map_cons] at hnd
  exact (List.nodup_cons.mp hnd).1 (hc ▸ List.mem_map.mpr ⟨r, hr, rfl⟩)

theorem yearValues_loaded (fn : String) {hdr : Row} {rows : CSVFile} {idx : ℕ}
    (hf : numericFile (hdr :: rows) = true) (hidx : idx < hdr.tail.length) :
    ∃ vals : List ℚ,
      yearValues (loadedTable fn hdr rows) idx = some vals ∧
      vals.length = rows.length ∧
      (rows.map fun r => (r.tail[idx]?).bind pyParseFloat) = vals.map some := by
  obtain ⟨hg, hints, hlens, hfloats⟩ := numericFile_spec hf
  obtain ⟨hlen2, hne, hnd⟩ := goodFile_spec hg
  have hall : ∀ o ∈ rows.map fun r => (r.tail[idx]?).bind pyParseFloat,
      ∃ a, o = some a := by
    intro o ho
    obtain ⟨r, hr, rfl⟩ := List.mem_map.mp ho
    have hrlen : idx < r.tail.length := by
      have h1 := hlens r hr
      rw [List.length_tail] at hidx ⊢
      omega
    rw [List.getElem?_eq_getElem hrlen, Option.some_bind]
    exact Option.isSome_iff_exists.mp
      (hfloats r hr _ (List.getElem_mem hrlen))
  obtain ⟨vals, hveq⟩ := exists_map_some hall
  refine ⟨vals, ?_, ?_, hveq⟩
  · simp only [yearValues, loadedTable, filter_ne_first hnd, List.map_map]
    have hcomp : ((fun kv : String × List String => (kv.2[idx]?).bind pyParseFloat) ∘
        fun r : Row => (r.headI, r.tail)) = fun r => (r.tail[idx]?).bind pyParseFloat := rfl
    rw [hcomp, hveq, seqOpt_map_some]
  · have hlen := congrArg List.length hveq
    simpa using hlen.symm

theorem analyzeYear_ne_rangeError {t : Table} {year lo hi : Int}
    (hr : yearRange t = some (lo, hi)) (hy : lo ≤ year ∧ year ≤ hi) :
    analyzeYear t year ≠ .error .rangeError := by
  intro hc
  simp only [analyzeYear, hr] at hc
  rw [if_pos hy] at hc
  repeat' split at hc
  all_goals simp at hc

theorem load_data_dict {fn : String} {f : CSVFile} {t : Table}
    (h : load fn f = .ok t) : t.data_dict = buildDict f := by
  simp only [load] at h
  by_cases h1 : f.length < 2
  · rw [if_pos h1] at h
    exact Except.noConfusion h
  · rw [if_neg h1] at h
    by_cases hA : f.any List.isEmpty = true
    · rw [if_pos hA] at h
      exact Except.noConfusion h
    · rw [if_neg hA] at h
      rcases hb : buildDict f with _ | ⟨⟨k, v⟩, rest⟩
      · rw [hb] at h
        exact Except.noConfusion h
      · rw [hb] at h
        simp only [Except.ok.injEq] at h
        rw [← h]

theorem headI_cons_tail {α : Type} [Inhabited α] {l : List α} (h : l ≠ []) :
    l.headI :: l.tail = l := by
  rcases l with _ | ⟨a, as⟩
  · exact absurd rfl h
  · rfl

theorem dictFind_map_of_nodup {rows : CSVFile} (hnd : (rows.map List.headI).Nodup)
    {r : Row} (hr : r ∈ rows) :
    dictFind (rows.map fun r2 => (r2.headI, r2.tail)) r.headI = some r.tail := by
  induction rows with
  | nil => simp at hr
  | cons q qs ih =>
    rw [List.map_cons] at hnd
    rw [List.mem_cons] at hr
    rcases hr with rfl | hr
    · simp [dictFind]
    · have hq : q.headI ≠ r.headI := by
        intro hc
        exact (List.nodup_cons.mp hnd).1 (hc ▸ List.mem_map.mpr ⟨r, hr, rfl⟩)
      simp only [List.map_cons, dictFind, if_neg hq]
      exact ih (List.nodup_cons.mp hnd).2 hr

/-- C9: no operation after construction mutates the loaded table: the
state-passing versions of `analyze_year`, `verify_structure`, `get_country`,
`extract_to_file` and `visualize` all return the object state unchanged
(every field as it was). -/
theorem ops_leave_table_unchanged (t : Table) (year : Int) (input : List String)
    (num : ℕ) (strict : Bool) (req files : List String) (ow : Bool) :
    (analyze_yearS t year).1 = t ∧ (verify_structureS t).1 = t ∧
    (get_countryS t input num strict).1 = t ∧
    (extract_to_fileS t req files ow).1 = t ∧ (visualizeS t req).1 = t :=
  ⟨rfl, rfl, rfl, rfl, rfl⟩

/-- C1 counterexample: a file whose data row has a different length than the
header row (3 cells against 2) is loaded into a Table without any failure, so
Load does not reject rows of inconsistent length. -/
theorem load_accepts_ragged_rows :
    (["A", "1", "2"] : List String).length ≠ (["l", "2019"] : List String).length ∧
    ∃ t, load "f.csv" [["l", "2019"], ["A", "1", "2"]] = .ok t := by
  refine ⟨by decide,
    ⟨Table.mk "f.csv" [("l", ["2019"]), ("A", ["1", "2"])] ["A"] "l" ["2019"], by rfl⟩⟩

/-- C1 amended: Load fails exactly when the file has fewer than two rows (in
particular when no data rows follow the header) or contains a blank row; rows
of inconsistent length are not checked, and such a file is loaded into a
Table. -/
theorem load_ok_iff_enough_rows (fn : String) (f : CSVFile) :
    (∃ t, load fn f = .ok t) ↔ 2 ≤ f.length ∧ ∀ r ∈ f, r ≠ [] :=
  load_isOk_iff

theorem verify_structure_false_iff (t : Table) : verify_structure t = false ↔
      (∃ kv0, t.data_dict.head? = some kv0 ∧ ∃ c ∈ kv0.2, pyParseInt c = none) ∨
      (∃ kv ∈ t.data_dict.tail, pyIsAlpha (stripDashQuoteSpace kv.1) = false ∨
        ∃ c ∈ kv.2, pyParseFloat c = none) := by
  rcases hd : t.data_dict with _ | ⟨⟨k0, v0⟩, rest⟩
  · simp [verify_structure, hd]
  · simp only [verify_structure, hd, List.head?_cons, List.tail_cons, Option.some.injEq]
    constructor
    · intro h
      rcases Bool.and_eq_false_iff.mp h with h | h
      · obtain ⟨c, hc, hcp⟩ := List.all_eq_false.mp h
        have hcp2 : (pyParseInt c).isSome = false := by simpa using hcp
        exact Or.inl ⟨(k0, v0), rfl, c, hc, Option.not_isSome_iff_eq_none.mp (by simp [hcp2])⟩
      · obtain ⟨kv, hkv, hkvp⟩ := List.all_eq_false.mp h
        rw [Bool.not_eq_true] at hkvp
        rcases Bool.and_eq_false_iff.mp hkvp with h2 | h2
        · exact Or.inr ⟨kv, hkv, Or.inl h2⟩
        · obtain ⟨c, hc, hcp⟩ := List.all_eq_false.mp h2
          have hcp2 : (pyParseFloat c).isSome = false := by simpa using hcp
          exact Or.inr ⟨kv, hkv, Or.inr ⟨c, hc, Option.not_isSome_iff_eq_none.mp (by simp [hcp2])⟩⟩
    · intro h
      rcases h with ⟨kv0, hkv0, c, hc, hcp⟩ | ⟨kv, hkv, h2⟩
      · apply Bool.and_eq_false_iff.mpr
        left
        apply List.all_eq_false.mpr
        refine ⟨c, ?_, ?_⟩
        · rw [← hkv0] at hc
          exact hc
        · simp [hcp]
      · apply Bool.and_eq_false_iff.mpr
        right
        apply List.all_eq_false.mpr
        refine ⟨kv, hkv, ?_⟩
        rw [Bool.not_eq_true]
        rcases h2 with h2 | ⟨c, hc, hcp⟩
        · simp [h2]
        · apply Bool.and_eq_false_iff.mpr
          right
          apply List.all_eq_false.mpr
          refine ⟨c, hc, ?_⟩
          simp [hcp]

/-- C5: `verify_structure` returns false -- without raising -- exactly when
some header cell fails to parse as an integer, or some country entry has a
key that is not purely alphabetic after stripping dashes, apostrophes and
spaces, or a value cell that fails to parse as a float; in particular it
returns false for a header cell "abc", a country key "123", and a value cell
"N/A". -/
theorem verify_structure_spec :
    (∀ t : Table, verify_structure t = false ↔
      (∃ kv0, t.data_dict.head? = some kv0 ∧ ∃ c ∈ kv0.2, pyParseInt c = none) ∨
      (∃ kv ∈ t.data_dict.tail, pyIsAlpha (stripDashQuoteSpace kv.1) = false ∨
        ∃ c ∈ kv.2, pyParseFloat c = none)) ∧
    verify_structure badHeaderTable = false ∧
    verify_structure badKeyTable = false ∧
    verify_structure badValTable = false :=
  ⟨fun t => verify_structure_false_iff t, by decide, by decide, by decide⟩

/-- C6: `get_country` fails exactly when the cardinality check fails, or two
supplied names collide after normalization, or some normalized name is not
among the table's countries; on success it returns the normalized names in
the order supplied. -/
theorem get_country_spec (t : Table) (input : List String) (num : ℕ)
    (strict : Bool) :
    ((∃ e, get_country t input num strict = .error e) ↔
      ¬(countCheck strict num input.length = true ∧ (input.map normalize).Nodup ∧
        ∀ c ∈ input.map normalize, c ∈ t.countries)) ∧
    (∀ res, get_country t input num strict = .ok res ↔
      (countCheck strict num input.length = true ∧ (input.map normalize).Nodup ∧
       (∀ c ∈ input.map normalize, c ∈ t.countries) ∧ res = input.map normalize)) := by
  by_cases h1 : countCheck strict num input.length = true
  · by_cases h2 : (input.map normalize).Nodup
    · by_cases h3 : ∀ c ∈ input.map normalize, c ∈ t.countries
      · have hres : get_country t input num strict = .ok (input.map normalize) := by
          simp only [get_country, if_pos h1, if_pos h2]
          rw [if_pos (by simpa [List.all_eq_true] using h3)]
        rw [hres]
        refine ⟨⟨fun he => ?_, fun hcon => absurd ⟨h1, h2, h3⟩ hcon⟩, fun res => ?_⟩
        · obtain ⟨e, he⟩ := he
          exact Except.noConfusion he
        · simp only [Except.ok.injEq]
          constructor
          · intro h
            exact ⟨h1, h2, h3, h.symm⟩
          · intro h
            exact h.2.2.2.symm
      · have hres : get_country t input num strict = .error .unknown := by
          simp only [get_country, if_pos h1, if_pos h2]
          rw [if_neg (by simpa [List.all_eq_true] using h3)]
        rw [hres]
        refine ⟨⟨fun _ hcon => h3 hcon.2.2, fun _ => ⟨.unknown, rfl⟩⟩, fun res => ?_⟩
        exact ⟨fun h => Except.noConfusion h, fun hcon => absurd hcon.2.2.1 h3⟩
    · have hres : get_country t input num strict = .error .duplicate := by
        simp only [get_country, if_pos h1]
        rw [if_neg h2]
      rw [hres]
      refine ⟨⟨fun _ hcon => h2 hcon.2.1, fun _ => ⟨.duplicate, rfl⟩⟩, fun res => ?_⟩
      exact ⟨fun h => Except.noConfusion h, fun hcon => absurd hcon.2.1 h2⟩
  · have hres : get_country t input num strict = .error .badCount := by
      simp only [get_country]
      rw [if_neg h1]
    rw [hres]
    refine ⟨⟨fun _ hcon => h1 hcon.1, fun _ => ⟨.badCount, rfl⟩⟩, fun res => ?_⟩
    exact ⟨fun h => Except.noConfusion h, fun hcon => absurd hcon.1 h1⟩

/-- C6 witness: on the example table, requesting exactly one country with the
raw input " france " succeeds and returns the normalized name "France". -/
theorem get_country_spec_witness :
    get_country exTable [" france "] 1 true = .ok ["France"] := by
  have h := ((get_country_spec exTable [" france "] 1 true).2 ["France"]).mpr
    ⟨by decide, by decide, by decide, by decide⟩
  exact h

/-- C2 counterexample: `gapTable` is loaded from a file whose header years
are 2019 and 2021; the year 2020 lies within the inclusive min-max range of
the header years, yet AnalyzeYear does not succeed on it (the exact integer
match on the header fails), so "succeeds exactly when the year lies in the
min-max range" is false. -/
theorem analyzeYear_gap_counterexample :
    (load "gap.csv" [["l", "2019", "2021"], ["A", "1.0", "1.0"], ["B", "2.0", "2.0"]]
      = .ok gapTable) ∧
    gapTable.first_value.map pyParseInt = [some 2019, some 2021] ∧
    ((2019 : Int) ≤ 2020 ∧ (2020 : Int) ≤ 2021) ∧
    ¬ ∃ s, analyzeYear gapTable 2020 = .ok s := by
  refine ⟨by rfl, by decide, by decide, ?_⟩
  rintro ⟨s, hs⟩
  rw [show analyzeYear gapTable 2020 = .error .fatal from rfl] at hs
  exact Except.noConfusion hs

/-- C2 amended: for a table loaded from a numerically well-formed file,
AnalyzeYear rejects with a RangeError exactly the years outside the inclusive
range bounded by the first and last header years (the header's min and max
when it is sorted ascending), and succeeds exactly when the year is inside
that range and additionally matches some header cell exactly — an in-range
year absent from the header fails instead of matching the nearest column. -/
theorem analyzeYear_range_exact (fn : String) (hdr : Row) (rows : CSVFile)
    (t : Table) (year lo hi : Int)
    (hf : numericFile (hdr :: rows) = true)
    (hl : load fn (hdr :: rows) = .ok t)
    (hr : yearRange t = some (lo, hi)) :
    (analyzeYear t year = .error .rangeError ↔ ¬(lo ≤ year ∧ year ≤ hi)) ∧
    ((∃ s, analyzeYear t year = .ok s) ↔
      ((lo ≤ year ∧ year ≤ hi) ∧ toString year ∈ t.first_value)) := by
  obtain ⟨hg, hints, hlens, hfloats⟩ := numericFile_spec hf
  have hl0 := load_eq_ok fn hg
  rw [hl0] at hl
  simp only [Except.ok.injEq] at hl
  subst hl
  refine ⟨⟨fun hre hy => absurd hre (analyzeYear_ne_rangeError hr hy),
    fun hy => analyzeYear_rangeError hr hy⟩, ⟨?_, ?_⟩⟩
  · rintro ⟨s, hs⟩
    obtain ⟨lo2, hi2, idx, vals, mn, mx, imn, imx, hr2, hy2, hidx2, _⟩ :=
      analyzeYear_ok_inv hs
    rw [hr] at hr2
    simp only [Option.some.injEq, Prod.mk.injEq] at hr2
    obtain ⟨h1, h2⟩ := hr2
    subst h1
    subst h2
    exact ⟨hy2, List.getElem?_mem (pyIndex_eq_some hidx2).1⟩
  · rintro ⟨hy, hmem⟩
    have hmem2 : toString year ∈ hdr.tail := hmem
    obtain ⟨idx, hidx, hlt⟩ := pyIndex_of_mem hmem2
    obtain ⟨vals, hvals, hvlen, hvmap⟩ := yearValues_loaded fn hf hlt
    have hrowsne : rows ≠ [] := by
      obtain ⟨hlen2, _, _⟩ := goodFile_spec hg
      intro hc
      rw [hc] at hlen2
      simp at hlen2
    have hvne : vals ≠ [] := by
      intro hc
      rw [hc] at hvlen
      exact hrowsne (List.length_eq_zero.mp hvlen.symm)
    obtain ⟨mn, hmn⟩ := pyMin_isSome hvne
    obtain ⟨mx, hmx⟩ := pyMax_isSome hvne
    obtain ⟨imn, himn, himnlt⟩ := pyIndex_of_mem (pyMin_spec hmn).1
    obtain ⟨imx, himx, himxlt⟩ := pyIndex_of_mem (pyMax_spec hmx).1
    have hclen : (loadedTable fn hdr rows).countries.length = vals.length := by
      simp only [loadedTable]
      rw [List.length_map, hvlen]
    obtain ⟨cmin, hcmin⟩ : ∃ c, (loadedTable fn hdr rows).countries[imn]? = some c := by
      rw [List.getElem?_eq_getElem (by rw [hclen]; exact himnlt)]
      exact ⟨_, rfl⟩
    obtain ⟨cmax, hcmax⟩ : ∃ c, (loadedTable fn hdr rows).countries[imx]? = some c := by
      rw [List.getElem?_eq_getElem (by rw [hclen]; exact himxlt)]
      exact ⟨_, rfl⟩
    exact ⟨_, analyzeYear_ok_build hr hy hidx hvals hmn hmx himn himx hcmin hcmax⟩

/-- C2 witness: on the example table (header 2019-2021) the amended theorem
applies, and the year 2020 (in range and present) succeeds. -/
theorem analyzeYear_range_exact_witness :
    ∃ s, analyzeYear exTable 2020 = .ok s := by
  have h := (analyzeYear_range_exact "data.csv" ["CO2", "2019", "2020", "2021"]
    [["France", "1.1", "1.2", "1.3"], ["Germany", "2.1", "1.9", "2.0"]]
    exTable 2020 2019 2021 (by decide) (by rfl) (by rfl)).2
  exact h.mpr ⟨by decide, by decide⟩

/-- C3: when AnalyzeYear succeeds and two or more entries of the year's
column attain its minimum (respectively maximum) value, the reported min
(respectively max) country is the one at the earliest index attaining that
value — the scan is stable, so the earliest-inserted country wins ties. -/
theorem analyzeYear_tie_first (t : Table) (year : Int) (s : YearStats)
    (idx : ℕ) (vals : List ℚ)
    (hidx : pyIndex t.first_value (toString year) = some idx)
    (hvals : yearValues t idx = some vals)
    (hok : analyzeYear t year = .ok s) :
    ((∃ (i j : ℕ) (m : ℚ), i < j ∧ vals[i]? = some m ∧ vals[j]? = some m ∧
        ∀ x ∈ vals, m ≤ x) →
      ∃ (i0 : ℕ) (m : ℚ), vals[i0]? = some m ∧ (∀ x ∈ vals, m ≤ x) ∧
        (∀ j, j < i0 → vals[j]? ≠ some m) ∧ t.countries[i0]? = some s.minCountry) ∧
    ((∃ (i j : ℕ) (m : ℚ), i < j ∧ vals[i]? = some m ∧ vals[j]? = some m ∧
        ∀ x ∈ vals, x ≤ m) →
      ∃ (i0 : ℕ) (m : ℚ), vals[i0]? = some m ∧ (∀ x ∈ vals, x ≤ m) ∧
        (∀ j, j < i0 → vals[j]? ≠ some m) ∧ t.countries[i0]? = some s.maxCountry) := by
  obtain ⟨lo, hi, idx2, vals2, mn, mx, imn, imx, hr2, hy2, hidx2, hvals2, hmn, hmx,
    himn, himx, hcmin, hcmax, havg⟩ := analyzeYear_ok_inv hok
  rw [hidx] at hidx2
  simp only [Option.some.injEq] at hidx2
  subst hidx2
  rw [hvals] at hvals2
  simp only [Option.some.injEq] at hvals2
  subst hvals2
  constructor
  · rintro ⟨i, j, m, hij, hi, hj, hlb⟩
    have hspec := pyMin_spec hmn
    have hmmem : m ∈ vals := List.getElem?_mem hi
    have hm : m = mn := le_antisymm (hlb mn hspec.1) (hspec.2 m hmmem)
    subst hm
    obtain ⟨hik, hprev⟩ := pyIndex_eq_some himn
    exact ⟨imn, m, hik, hspec.2, hprev, hcmin⟩
  · rintro ⟨i, j, m, hij, hi, hj, hub⟩
    have hspec := pyMax_spec hmx
    have hmmem : m ∈ vals := List.getElem?_mem hi
    have hm : m = mx := le_antisymm (hspec.2 m hmmem) (hub mx hspec.1)
    subst hm
    obtain ⟨hik, hprev⟩ := pyIndex_eq_some himx
    exact ⟨imx, m, hik, hspec.2, hprev, hcmax⟩

theorem pyParseFloat_3_0 : pyParseFloat "3.0" = some 3 := by
  rw [show pyParseFloat "3.0" = some (((3 : ℕ) : ℚ) + ((0 : ℕ) : ℚ) / (10 : ℚ) ^ (1 : ℕ)) from rfl]
  norm_num
theorem pyParseFloat_1_0 : pyParseFloat "1.0" = some 1 := by
  rw [show pyParseFloat "1.0" = some (((1 : ℕ) : ℚ) + ((0 : ℕ) : ℚ) / (10 : ℚ) ^ (1 : ℕ)) from rfl]
  norm_num
theorem tie_yearValues : yearValues tieTable 0 = some [3, 1, 1, 3] := by
  simp +decide [yearValues, tieTable, seqOpt, pyParseFloat_3_0, pyParseFloat_1_0]
theorem tie_min : pyMin [3, 1, 1, 3] = some 1 := by
  norm_num [pyMin, List.foldl, min_def]
theorem tie_max : pyMax [3, 1, 1, 3] = some 3 := by
  norm_num [pyMax, List.foldl, max_def]
theorem tie_imn : pyIndex ([3, 1, 1, 3] : List ℚ) 1 = some 1 := by
  norm_num [pyIndex]
theorem tie_imx : pyIndex ([3, 1, 1, 3] : List ℚ) 3 = some 0 := by
  norm_num [pyIndex]
theorem tie_avg : round6 (([3, 1, 1, 3] : List ℚ).sum / (([3, 1, 1, 3] : List ℚ).length : ℚ)) = 2 := by
  norm_num [round6, roundHalfEven]
theorem tie_ok : analyzeYear tieTable 2019 = .ok { minCountry := "B", maxCountry := "A", average := 2 } := by
  have hr : yearRange tieTable = some (2019, 2019) := rfl
  have hidx0 : pyIndex tieTable.first_value (toString (2019 : Int)) = some 0 := rfl
  have h := analyzeYear_ok_build hr (by decide) hidx0 tie_yearValues tie_min tie_max
    tie_imn tie_imx rfl rfl
  rw [h, tie_avg]
  rfl

/-- C3 witness: on `tieTable` (column values 3, 1, 1, 3 for countries A, B,
C, D) the minimum 1 is attained by both B and C, and the earliest-inserted
one, B, is reported as the minimum country. -/
theorem analyzeYear_tie_first_witness :
    ∃ (i0 : ℕ) (m : ℚ), ([3, 1, 1, 3] : List ℚ)[i0]? = some m ∧
      (∀ x ∈ ([3, 1, 1, 3] : List ℚ), m ≤ x) ∧
      (∀ j, j < i0 → ([3, 1, 1, 3] : List ℚ)[j]? ≠ some m) ∧
      tieTable.countries[i0]? = some "B" := by
  have h := (analyzeYear_tie_first tieTable 2019
    { minCountry := "B", maxCountry := "A", average := 2 } 0 [3, 1, 1, 3]
    rfl tie_yearValues tie_ok).1
  exact h ⟨1, 2, 1, by norm_num, by norm_num, by norm_num, by norm_num⟩

theorem tie_yearValues_swap : yearValues tieTableSwap 0 = some [1, 3, 1, 3] := by
  simp +decide [yearValues, tieTableSwap, seqOpt, pyParseFloat_3_0, pyParseFloat_1_0]

theorem tie_min_swap : pyMin [1, 3, 1, 3] = some 1 := by
  norm_num [pyMin, List.foldl, min_def]

theorem tie_max_swap : pyMax [1, 3, 1, 3] = some 3 := by
  norm_num [pyMax, List.foldl, max_def]

theorem tie_imn_swap : pyIndex ([1, 3, 1, 3] : List ℚ) 1 = some 0 := by
  norm_num [pyIndex]

theorem tie_imx_swap : pyIndex ([1, 3, 1, 3] : List ℚ) 3 = some 1 := by
  norm_num [pyIndex]

theorem tie_avg_swap :
    round6 (([1, 3, 1, 3] : List ℚ).sum / (([1, 3, 1, 3] : List ℚ).length : ℚ)) = 2 := by
  norm_num [round6, roundHalfEven]

theorem tie_ok_swap : analyzeYear tieTableSwap 2019
    = .ok { minCountry := "B", maxCountry := "A", average := 2 } := by
  have hr : yearRange tieTableSwap = some (2019, 2019) := rfl
  have hidx0 : pyIndex tieTableSwap.first_value (toString (2019 : Int)) = some 0 := rfl
  have h := analyzeYear_ok_build hr (by decide) hidx0 tie_yearValues_swap tie_min_swap
    tie_max_swap tie_imn_swap tie_imx_swap rfl rfl
  rw [h, tie_avg_swap]
  rfl

/-- C4: the average AnalyzeYear reports is the arithmetic mean of the year's
column rounded to 6 decimal places half-to-even (over the exact rationals the
cell values are modelled by), and the average as well as the column's min and
max values are unchanged under any permutation of the country rows of the
source file. -/
theorem analyzeYear_average_perm (fn fn2 : String) (hdr : Row)
    (rows rows2 : CSVFile) (t t2 : Table) (year : Int) (s s2 : YearStats)
    (hperm : rows.Perm rows2)
    (hf : numericFile (hdr :: rows) = true)
    (hf2 : numericFile (hdr :: rows2) = true)
    (hl : load fn (hdr :: rows) = .ok t)
    (hl2 : load fn2 (hdr :: rows2) = .ok t2)
    (hok : analyzeYear t year = .ok s)
    (hok2 : analyzeYear t2 year = .ok s2) :
    s.average = s2.average ∧
    ∃ (idx : ℕ) (vals vals2 : List ℚ),
      pyIndex t.first_value (toString year) = some idx ∧
      yearValues t idx = some vals ∧ yearValues t2 idx = some vals2 ∧
      s.average = round6 (vals.sum / (vals.length : ℚ)) ∧
      vals.Perm vals2 ∧ pyMin vals = pyMin vals2 ∧ pyMax vals = pyMax vals2 := by
  obtain ⟨hg, _, _, _⟩ := numericFile_spec hf
  obtain ⟨hg2, _, _, _⟩ := numericFile_spec hf2
  have hl0 := load_eq_ok fn hg
  rw [hl0] at hl
  simp only [Except.ok.injEq] at hl
  subst hl
  have hl02 := load_eq_ok fn2 hg2
  rw [hl02] at hl2
  simp only [Except.ok.injEq] at hl2
  subst hl2
  obtain ⟨lo, hi, idx, valsA, mn, mx, imn, imx, hr, hy, hidx, hvalsA,
    _, _, _, _, _, _, havg⟩ := analyzeYear_ok_inv hok
  obtain ⟨lo2, hi2, idx2, valsB, mn2, mx2, imn2, imx2, hr2, hy2, hidx2, hvalsB,
    _, _, _, _, _, _, havg2⟩ := analyzeYear_ok_inv hok2
  have hsame : pyIndex hdr.tail (toString year) = some idx := hidx
  have hsame2 : pyIndex hdr.tail (toString year) = some idx2 := hidx2
  rw [hsame] at hsame2
  simp only [Option.some.injEq] at hsame2
  subst hsame2
  have hlt : idx < hdr.tail.length :=
    (List.getElem?_eq_some.mp (pyIndex_eq_some hsame).1).1
  obtain ⟨valsA2, hvalsA2, hlenA, hmapA⟩ := yearValues_loaded fn hf hlt
  obtain ⟨valsB2, hvalsB2, hlenB, hmapB⟩ := yearValues_loaded fn2 hf2 hlt
  rw [hvalsA] at hvalsA2
  simp only [Option.some.injEq] at hvalsA2
  subst hvalsA2
  rw [hvalsB] at hvalsB2
  simp only [Option.some.injEq] at hvalsB2
  subst hvalsB2
  have hvperm : valsA.Perm valsB := by
    apply perm_of_map_some
    rw [← hmapA, ← hmapB]
    exact hperm.map _
  have havgeq : s.average = s2.average := by
    rw [havg, havg2, hvperm.sum_eq, hvperm.length_eq]
  exact ⟨havgeq, idx, valsA, valsB, hidx, hvalsA, hvalsB, havg, hvperm,
    pyMin_perm hvperm, pyMax_perm hvperm⟩

/-- C4 witness: the tie table and the same file with its first two country
rows swapped give the same average 2 (the rounded mean), and permuted column
values with the same min and max. -/
theorem analyzeYear_average_perm_witness :
    (2 : ℚ) = (2 : ℚ) ∧
    ∃ (idx : ℕ) (vals vals2 : List ℚ),
      pyIndex tieTable.first_value (toString (2019 : Int)) = some idx ∧
      yearValues tieTable idx = some vals ∧ yearValues tieTableSwap idx = some vals2 ∧
      (2 : ℚ) = round6 (vals.sum / (vals.length : ℚ)) ∧
      vals.Perm vals2 ∧ pyMin vals = pyMin vals2 ∧ pyMax vals = pyMax vals2 := by
  have h := analyzeYear_average_perm "tie.csv" "tie.csv" ["l", "2019"]
    [["A", "3.0"], ["B", "1.0"], ["C", "1.0"], ["D", "3.0"]]
    [["B", "1.0"], ["A", "3.0"], ["C", "1.0"], ["D", "3.0"]]
    tieTable tieTableSwap 2019
    { minCountry := "B", maxCountry := "A", average := 2 }
    { minCountry := "B", maxCountry := "A", average := 2 }
    (by decide) (by decide) (by decide) rfl rfl tie_ok tie_ok_swap
  exact h

/-- C7: loading a well-formed file, extracting with the full country list,
and loading the extracted rows again reproduces the same Table (same header
row, same country-to-series mapping, same insertion order). -/
theorem load_extract_roundtrip (fn : String) (f : CSVFile)
    (hg : goodFile f = true) :
    ∃ t f2, load fn f = .ok t ∧ extractRows t t.countries = some f2 ∧
      load fn f2 = .ok t := by
  obtain ⟨hlen, hne, hnd⟩ := goodFile_spec hg
  rcases f with _ | ⟨hdr, rows⟩
  · simp at hlen
  · refine ⟨loadedTable fn hdr rows, hdr :: rows, load_eq_ok fn hg, ?_, load_eq_ok fn hg⟩
    have hnd2 : (rows.map List.headI).Nodup := by
      rw [List.map_cons] at hnd
      exact (List.nodup_cons.mp hnd).2
    have hhd : hdr.headI ∉ rows.map List.headI := by
      rw [List.map_cons] at hnd
      exact (List.nodup_cons.mp hnd).1
    have hfind0 : dictFind (loadedTable fn hdr rows).data_dict
        (loadedTable fn hdr rows).first_key = some hdr.tail := by
      simp [loadedTable, dictFind]
    have hpt : ∀ r ∈ rows,
        (dictFind (loadedTable fn hdr rows).data_dict r.headI).map
          (fun v => r.headI :: v) = some r := by
      intro r hr
      have hne2 : hdr.headI ≠ r.headI := by
        intro hc
        exact hhd (hc ▸ List.mem_map.mpr ⟨r, hr, rfl⟩)
      have hstep : dictFind (loadedTable fn hdr rows).data_dict r.headI
          = dictFind (rows.map fun r2 => (r2.headI, r2.tail)) r.headI := by
        simp only [loadedTable, dictFind]
        rw [if_neg hne2]
      rw [hstep, dictFind_map_of_nodup hnd2 hr]
      simp only [Option.map_some']
      rw [headI_cons_tail (hne r (by simp [hr]))]
    have hmap : (loadedTable fn hdr rows).countries.map (fun c =>
        (dictFind (loadedTable fn hdr rows).data_dict c).map fun v => c :: v)
        = rows.map some := by
      have hcoun : (loadedTable fn hdr rows).countries = rows.map List.headI := rfl
      rw [hcoun, List.map_map]
      apply List.map_congr_left
      intro r hr
      exact hpt r hr
    simp only [extractRows, hfind0, hmap, seqOpt_map_some]
    rw [show (loadedTable fn hdr rows).first_key = hdr.headI from rfl,
      headI_cons_tail (hne hdr (by simp))]

/-- C7 witness: the round trip on the example file. -/
theorem load_extract_roundtrip_witness :
    ∃ t f2, load "data.csv" exFile = .ok t ∧ extractRows t t.countries = some f2 ∧
      load "data.csv" f2 = .ok t :=
  load_extract_roundtrip "data.csv" exFile (by decide)

/-- Splitting off the extension of a name ending in `.csv`:
`os.path.splitext` keeps everything before the final dot as the stem. -/
theorem splitext_append_csv (s : String) : splitext (s ++ ".csv") = (s, ".csv") := by
  have h1 : (s ++ ".csv").toList = s.toList ++ ['.', 'c', 's', 'v'] := by
    simp [String.toList]
  have h2 : (s ++ ".csv").toList.reverse = 'v' :: 's' :: 'c' :: '.' :: s.toList.reverse := by
    rw [h1]
    simp
  simp only [splitext, h2]
  rw [List.takeWhile_cons_of_pos (by decide), List.takeWhile_cons_of_pos (by decide),
    List.takeWhile_cons_of_pos (by decide), List.takeWhile_cons_of_neg (by decide)]
  rw [if_neg (by simp only [List.length_cons, List.length_nil, List.length_reverse]; omega)]
  simp only [List.length_cons, List.length_nil, List.drop_succ_cons, List.drop_zero,
    List.reverse_reverse]
  rfl

theorem findFree_spec {name ext : String} {files : List String} {N : ℕ} :
    ∀ (fuel counter : ℕ), counter ≤ N → N ≤ counter + fuel →
    (∀ k, counter ≤ k → k < N → candName name ext k ∈ files) →
    candName name ext N ∉ files →
    findFree name ext files counter fuel = candName name ext N := by
  intro fuel
  induction fuel with
  | zero =>
    intro counter h1 h2 _ _
    have hc : counter = N := by omega
    rw [findFree, hc]
  | succ fuel ih =>
    intro counter h1 h2 hbusy hfree
    rw [findFree]
    by_cases hc : candName name ext counter ∈ files
    · rw [if_pos hc]
      have hcn : counter ≠ N := fun hc2 => hfree (hc2 ▸ hc)
      exact ih (counter + 1) (by omega) (by omega)
        (fun k hk1 hk2 => hbusy k (by omega) hk2) hfree
    · rw [if_neg hc]
      have hceq : counter = N := by
        by_contra hne2
        exact hc (hbusy counter le_rfl (by omega))
      rw [hceq]

theorem candName_eq (base : String) (k : ℕ) :
    candName (base ++ "_subset") ".csv" k = base ++ "_subset_" ++ toString k ++ ".csv" := by
  simp only [candName]
  rw [String.append_assoc base "_subset" "_"]
  rfl

/-- C8: when overwrite is off and the default name `<base>_subset.csv` exists,
extraction writes to `<base>_subset_N.csv` where `N` is the first positive
integer, checked sequentially from 1, whose file does not exist.  (`N` never
exceeds the number of existing files plus one, since the candidate names are
pairwise distinct.) -/
theorem extractName_first_free (base : String) (files : List String) (N : ℕ)
    (hrep : pyReplace (base ++ ".csv") ".csv" "_subset.csv" = base ++ "_subset.csv")
    (hex : base ++ "_subset.csv" ∈ files)
    (h1 : 1 ≤ N) (hN : N ≤ files.length + 1)
    (hfree : base ++ "_subset_" ++ toString N ++ ".csv" ∉ files)
    (hbusy : ∀ k, 1 ≤ k → k < N → base ++ "_subset_" ++ toString k ++ ".csv" ∈ files) :
    extractName (base ++ ".csv") files false = base ++ "_subset_" ++ toString N ++ ".csv" := by
  simp only [extractName, hrep]
  rw [if_pos (by simp [hex]),
    show base ++ "_subset.csv" = (base ++ "_subset") ++ ".csv" by
      rw [String.append_assoc]
      rfl,
    splitext_append_csv]
  rw [findFree_spec (files.length + 1) 1 h1 (by omega)
    (fun k hk1 hk2 => (candName_eq base k).symm ▸ hbusy k hk1 hk2)
    ((candName_eq base N).symm ▸ hfree)]
  exact candName_eq base N

/-- C8 witness: with `data_subset.csv` and `data_subset_1.csv` existing,
extracting from `data.csv` without overwrite writes to `data_subset_2.csv`. -/
theorem extractName_first_free_witness :
    extractName "data.csv" ["data_subset.csv", "data_subset_1.csv"] false
      = "data_subset_2.csv" := by
  have h := extractName_first_free "data" ["data_subset.csv", "data_subset_1.csv"] 2
    (by decide) (by decide) (by decide) (by decide) (by decide)
    (fun k hk1 hk2 => by
      have hk : k = 1 := by omega
      rw [hk]
      decide)
  exact h

/-- C10: a file two of whose rows share the same first cell loads without any
error; the dict keeps strictly fewer entries than the file has rows, and
looking up any name returns the values of the LAST row bearing it —
uniqueness of country names is never checked. -/
theorem load_duplicate_last_wins (fn : String) (f : CSVFile)
    (h2 : 2 ≤ f.length) (hne : ∀ r ∈ f, r ≠ [])
    (hdup : ¬ (f.map List.headI).Nodup) :
    ∃ t, load fn f = .ok t ∧ t.data_dict.length < f.length ∧
      ∀ k : String, dictFind t.data_dict k =
        ((f.filter fun r => decide (r.headI = k)).getLast?).map List.tail := by
  obtain ⟨t, ht⟩ := load_isOk_iff.mpr ⟨h2, hne⟩
  have hdd : t.data_dict = buildDict f := load_data_dict ht
  refine ⟨t, ht, ?_, ?_⟩
  · rw [hdd]
    exact length_buildDict_lt hne hdup
  · intro k
    rw [hdd, buildDict, dictFind_foldl [] k hne]
    rcases hl : (f.filter fun r => decide (r.headI = k)).getLast? with _ | r
    · rw [hl]
      rfl
    · rw [hl]
      rfl

/-- C10 witness: the duplicate file loads fine, with a smaller dict whose
lookups see the last duplicate row. -/
theorem load_duplicate_last_wins_witness :
    ∃ t, load "dup.csv" dupFile = .ok t ∧ t.data_dict.length < dupFile.length ∧
      ∀ k : String, dictFind t.data_dict k =
        ((dupFile.filter fun r => decide (r.headI = k)).getLast?).map List.tail :=
  load_duplicate_last_wins "dup.csv" dupFile (by decide) (by decide) (by decide)

end EmissionsAnalyzer
